import Mathlib

/-!
Verification of the gtf2utr repository's core algorithms: a shallow
embedding in Lean 4 of `gtf2utr/gtf_processor.py` (GTF loading, UTR
classification against the CDS bounding span, annotation output) and
`gtf2utr/utr_extractor.py` (reverse complement, chromosome slicing,
strand-aware fragment assembly, FASTA record emission), together with
theorems settling the specification's claims about them.

Genomic coordinates are modelled as `Int` (Python `int`), nucleotide
sequences as `List Char` (Python `str`), and Python dictionaries as
association lists with last-binding-wins lookup.
-/

namespace Gtf2Utr

/-- Lookup in a Python-style dict built from a key/value pair list:
the last binding of a key wins, as when a `dict` is populated by
iterating over pairs. Models `dict.get(key)` returning `None` on a
missing key. -/
def pyDictGet {ν : Type} (l : List (String × ν)) (k : String) : Option ν :=
  l.foldl (fun acc p => if p.1 = k then some p.2 else acc) none

/-- A parsed GTF row, as produced by `GTFProcessor.parse_gtf_line`:
the nine tab-separated columns with `start`/`end` converted to
integers and the attribute column parsed into key/value pairs. -/
structure GtfRecord where
  chrom : String
  source : String
  feature : String
  start : Int
  «end» : Int
  score : String
  strand : String
  frame : String
  attrs : List (String × String)
deriving DecidableEq

/-- An exon entry stored on a transcript (`transcript['exons']`). -/
structure ExonF where
  start : Int
  «end» : Int
  exon_number : String
deriving DecidableEq

/-- A raw UTR entry stored on a transcript (`transcript['utrs']`). -/
structure UtrF where
  start : Int
  «end» : Int
  original_type : String
deriving DecidableEq

/-- A CDS entry stored on a transcript (`transcript['cds']`). -/
structure CdsF where
  start : Int
  «end» : Int
  frame : String
deriving DecidableEq

/-- A classified UTR: the raw UTR entry after in-place clipping, plus
the `classified_type` key added by `GTFProcessor.classify_utrs`. -/
structure ClassifiedUtr where
  start : Int
  «end» : Int
  original_type : String
  classified_type : String
deriving DecidableEq

/-- The per-transcript accumulator of `GTFProcessor.transcripts`.
`classified_utrs = none` models the `'classified_utrs'` dict key being
absent (it is only added by `classify_utrs`). -/
structure Transcript where
  gene_id : String
  gene_name : String
  chrom : String
  strand : String
  gene_type : String
  transcript_type : String
  exons : List ExonF
  utrs : List UtrF
  cds : List CdsF
  classified_utrs : Option (List ClassifiedUtr)
deriving DecidableEq

/-- The defaultdict default value: every attribute empty. -/
def emptyTranscript : Transcript :=
  { gene_id := "", gene_name := "", chrom := "", strand := ""
    gene_type := "", transcript_type := ""
    exons := [], utrs := [], cds := [], classified_utrs := none }

/-- The acceptance filter of `GTFProcessor.load_gtf`: a record is
processed only if its `gene_type` attribute is `protein_coding`, it
carries a non-empty `transcript_id`, and its `transcript_type` is
`protein_coding`; returns the transcript id when accepted. -/
def acceptRecord (r : GtfRecord) : Option String :=
  if pyDictGet r.attrs "gene_type" ≠ some "protein_coding" then none
  else
    match pyDictGet r.attrs "transcript_id" with
    | none => none
    | some tid =>
      if tid = "" then none
      else if pyDictGet r.attrs "transcript_type" ≠ some "protein_coding" then none
      else some tid

/-- The body of the `load_gtf` loop for one accepted record: overwrite
the transcript's metadata attributes from the record, then append to
the feature list selected by the record's `feature` column. -/
def applyRecord (t : Transcript) (r : GtfRecord) : Transcript :=
  let t2 : Transcript :=
    { t with
      gene_id := (pyDictGet r.attrs "gene_id").getD ""
      gene_name := (pyDictGet r.attrs "gene_name").getD ""
      chrom := r.chrom
      strand := r.strand
      gene_type := (pyDictGet r.attrs "gene_type").getD ""
      transcript_type := (pyDictGet r.attrs "transcript_type").getD "" }
  if r.feature = "exon" then
    { t2 with exons := t2.exons ++
        [{ start := r.start, «end» := r.«end»
           exon_number := (pyDictGet r.attrs "exon_number").getD "" }] }
  else if r.feature = "UTR" ∨ r.feature = "five_prime_utr" ∨
          r.feature = "three_prime_utr" then
    { t2 with utrs := t2.utrs ++
        [{ start := r.start, «end» := r.«end», original_type := r.feature }] }
  else if r.feature = "CDS" then
    { t2 with cds := t2.cds ++
        [{ start := r.start, «end» := r.«end», frame := r.frame }] }
  else t2

/-- Lookup in the transcripts map (insertion-ordered association list
with unique keys, as a Python `dict`). -/
def lookupAssoc (m : List (String × Transcript)) (k : String) : Option Transcript :=
  match m with
  | [] => none
  | (k2, v) :: rest => if k2 = k then some v else lookupAssoc rest k

/-- Update the transcripts map at a key, defaulting a fresh entry at
the end when the key is new (the `defaultdict` access in `load_gtf`). -/
def updateAssoc (m : List (String × Transcript)) (k : String)
    (f : Transcript → Transcript) : List (String × Transcript) :=
  match m with
  | [] => [(k, f emptyTranscript)]
  | (k2, v) :: rest =>
    if k2 = k then (k2, f v) :: rest else (k2, v) :: updateAssoc rest k f

/-- One iteration of the `load_gtf` loop over parsed records. -/
def stepLoad (m : List (String × Transcript)) (r : GtfRecord) :
    List (String × Transcript) :=
  match acceptRecord r with
  | none => m
  | some tid => updateAssoc m tid (fun t => applyRecord t r)

/-- `GTFProcessor.load_gtf` on an already-parsed record stream:
fold the loop body over the records, starting from an empty map. -/
def load_gtf (records : List GtfRecord) : List (String × Transcript) :=
  records.foldl stepLoad []

/-- `min(cds_starts)` over a transcript's CDS list. -/
def minStarts (cds : List CdsF) : Int :=
  match cds with
  | [] => 0
  | c :: rest => rest.foldl (fun a x => min a x.start) c.start

/-- `max(cds_ends)` over a transcript's CDS list. -/
def maxEnds (cds : List CdsF) : Int :=
  match cds with
  | [] => 0
  | c :: rest => rest.foldl (fun a x => max a x.«end») c.«end»

/-- The strand-dependent branch cascade of `classify_utrs` for one raw
UTR interval, before the final coordinate-validity check: returns the
classified type together with the (possibly clipped) coordinates, or
`none` for the fully-inside `continue` branches. -/
def classifyOneRaw (strand : String) (cm cM s e : Int) :
    Option (String × Int × Int) :=
  if strand = "+" then
    if e < cm then some ("five_prime_utr", s, e)
    else if s > cM then some ("three_prime_utr", s, e)
    else if s < cm ∧ e ≥ cm then some ("five_prime_utr", s, cm - 1)
    else if s ≤ cM ∧ e > cM then some ("three_prime_utr", cM + 1, e)
    else none
  else
    if s > cM then some ("five_prime_utr", s, e)
    else if e < cm then some ("three_prime_utr", s, e)
    else if s ≤ cM ∧ e > cM then some ("five_prime_utr", cM + 1, e)
    else if s < cm ∧ e ≥ cm then some ("three_prime_utr", s, cm - 1)
    else none

/-- One full iteration of the `classify_utrs` inner loop: the branch
cascade followed by the `utr['start'] <= utr['end']` check that guards
the append to `classified_utrs`. -/
def classifyOne (strand : String) (cm cM s e : Int) :
    Option (String × Int × Int) :=
  match classifyOneRaw strand cm cM s e with
  | none => none
  | some (k, s2, e2) => if s2 ≤ e2 then some (k, s2, e2) else none

/-- The `classified_utrs` list computed for one transcript with
non-empty `cds` and `utrs`: each raw UTR either yields one classified
entry (clipped coordinates, `classified_type` added) or nothing. -/
def classifiedList (t : Transcript) : List ClassifiedUtr :=
  let cm := minStarts t.cds
  let cM := maxEnds t.cds
  t.utrs.filterMap (fun u =>
    (classifyOne t.strand cm cM u.start u.«end»).map (fun k =>
      { start := k.2.1, «end» := k.2.2
        original_type := u.original_type, classified_type := k.1 }))

/-- `classify_utrs` on one transcript: transcripts lacking CDS or raw
UTR features are skipped (no `classified_utrs` key is added). -/
def classifyT (t : Transcript) : Transcript :=
  if t.cds.isEmpty || t.utrs.isEmpty then t
  else { t with classified_utrs := some (classifiedList t) }

/-- `GTFProcessor.classify_utrs` over the whole transcripts map. -/
def classify_utrs (ts : List (String × Transcript)) :
    List (String × Transcript) :=
  ts.map (fun p => (p.1, classifyT p.2))

/-- One data row of the output GTF written by `write_output_gtf`
(the nine columns plus the attribute values interpolated into
`base_attrs`). -/
structure OutputRow where
  chrom : String
  source : String
  feature : String
  start : Int
  «end» : Int
  score : String
  strand : String
  frame : String
  gene_id : String
  transcript_id : String
  gene_type : String
  gene_name : String
  transcript_type : String
deriving DecidableEq

/-- A CDS output row for a transcript. -/
def cdsRowOf (tid : String) (t : Transcript) (c : CdsF) : OutputRow :=
  { chrom := t.chrom, source := "processed", feature := "CDS"
    start := c.start, «end» := c.«end», score := ".", strand := t.strand
    frame := c.frame, gene_id := t.gene_id, transcript_id := tid
    gene_type := t.gene_type, gene_name := t.gene_name
    transcript_type := t.transcript_type }

/-- A classified-UTR output row for a transcript. -/
def utrRowOf (tid : String) (t : Transcript) (u : ClassifiedUtr) : OutputRow :=
  { chrom := t.chrom, source := "processed", feature := u.classified_type
    start := u.start, «end» := u.«end», score := ".", strand := t.strand
    frame := ".", gene_id := t.gene_id, transcript_id := tid
    gene_type := t.gene_type, gene_name := t.gene_name
    transcript_type := t.transcript_type }

/-- Sorting key order of `sorted(..., key=lambda x: x['start'])` on CDS
entries. -/
def cdsLE (a b : CdsF) : Prop := a.start ≤ b.start

instance : DecidableRel cdsLE := fun a b =>
  inferInstanceAs (Decidable (a.start ≤ b.start))

/-- Sorting key order on classified UTR entries. -/
def clLE (a b : ClassifiedUtr) : Prop := a.start ≤ b.start

instance : DecidableRel clLE := fun a b =>
  inferInstanceAs (Decidable (a.start ≤ b.start))

/-- The data rows `write_output_gtf` emits for one transcript:
nothing when it has no CDS; otherwise its CDS rows sorted by start
followed by its classified-UTR rows sorted by start (none when the
`classified_utrs` key is absent). -/
def rowsForTranscript (tid : String) (t : Transcript) : List OutputRow :=
  if t.cds.isEmpty then []
  else
    ((t.cds.insertionSort cdsLE).map (cdsRowOf tid t)) ++
    (match t.classified_utrs with
     | none => []
     | some cl => (cl.insertionSort clLE).map (utrRowOf tid t))

/-- `GTFProcessor.write_output_gtf` as the list of data rows it writes,
iterating the transcripts map in insertion order. -/
def write_output_gtf (ts : List (String × Transcript)) : List OutputRow :=
  ts.flatMap (fun p => rowsForTranscript p.1 p.2)

/-- The complement dictionary of `UTRExtractor.reverse_complement`:
`{'A': 'T', 'T': 'A', 'G': 'C', 'C': 'G', 'N': 'N'}`. -/
def complement_map : List (Char × Char) :=
  [('A', 'T'), ('T', 'A'), ('G', 'C'), ('C', 'G'), ('N', 'N')]

/-- Char-keyed Python dict lookup (last binding wins). -/
def pyDictGetC (l : List (Char × Char)) (k : Char) : Option Char :=
  l.foldl (fun acc p => if p.1 = k then some p.2 else acc) none

/-- `complement.get(base.upper(), 'N')`: uppercase the base, look it up
in the complement dictionary, defaulting to `'N'`. -/
def complementChar (c : Char) : Char :=
  (pyDictGetC complement_map c.toUpper).getD 'N'

/-- `UTRExtractor.reverse_complement`: complement each base of the
reversed sequence and join. -/
def reverse_complement (s : List Char) : List Char :=
  s.reverse.map complementChar

/-- Python slicing `s[a:b]` for integer bounds: negative indices count
from the end, out-of-range bounds are clamped. -/
def pySlice (s : List Char) (a b : Int) : List Char :=
  let n : Int := s.length
  let a2 : Int := if a < 0 then max (n + a) 0 else min a n
  let b2 : Int := if b < 0 then max (n + b) 0 else min b n
  (s.take b2.toNat).drop a2.toNat

/-- The genome store: chromosome name to full sequence, as built by
`load_fasta` (a Python dict). -/
def Chromosomes : Type := List (String × List Char)

/-- `UTRExtractor.extract_sequence`: return the empty sequence when the
chromosome is unknown or the 1-based coordinates fall outside the
stored sequence, otherwise the slice, reverse-complemented when the
strand is `-`. -/
def extract_sequence (chroms : Chromosomes) (chr_name : String)
    (start e : Int) (strand : String) : List Char :=
  match pyDictGet chroms chr_name with
  | none => []
  | some seqn =>
    let start_idx := start - 1
    let end_idx := e
    if start_idx < 0 ∨ end_idx > (seqn.length : Int) then []
    else
      let s := pySlice seqn start_idx end_idx
      if strand = "-" then reverse_complement s else s

/-- One UTR region read back by the extractor's `load_gtf`. -/
structure UtrRegion where
  chr : String
  start : Int
  «end» : Int
  strand : String
  gene_id : String
  gene_name : String
deriving DecidableEq

/-- The `"chrom:start-end"` provenance string of a region, using its
original genomic coordinates. -/
def rangeStr (r : UtrRegion) : String :=
  r.chr ++ ":" ++ toString r.start ++ "-" ++ toString r.«end»

/-- Ascending order by region start. -/
def startLE (a b : UtrRegion) : Prop := a.start ≤ b.start

instance : DecidableRel startLE := fun a b =>
  inferInstanceAs (Decidable (a.start ≤ b.start))

instance : IsTotal UtrRegion startLE := ⟨fun a b => Int.le_total a.start b.start⟩

instance : IsTrans UtrRegion startLE :=
  ⟨fun _ _ _ hab hbc => le_trans hab hbc⟩

/-- Descending order by region start. -/
def startGE (a b : UtrRegion) : Prop := b.start ≤ a.start

instance : DecidableRel startGE := fun a b =>
  inferInstanceAs (Decidable (b.start ≤ a.start))

instance : IsTotal UtrRegion startGE := ⟨fun a b => Int.le_total b.start a.start⟩

instance : IsTrans UtrRegion startGE :=
  ⟨fun _ _ _ hab hbc => le_trans hbc hab⟩

/-- The assembly-order sort of `concatenate_utr_sequences`: ascending
by start on strand `+`, descending by start otherwise, with the strand
taken from the first region of the unsorted list. -/
def sortedRegions (regions : List UtrRegion) : List UtrRegion :=
  match regions with
  | [] => []
  | r0 :: _ =>
    if r0.strand = "+" then regions.insertionSort startLE
    else regions.insertionSort startGE

/-- The fragment loop of `concatenate_utr_sequences`: extract each
region's slice in order; an empty slice contributes neither a sequence
fragment nor a provenance range. -/
def assembleFragments (chroms : Chromosomes) :
    List UtrRegion → List (List Char) × List String
  | [] => ([], [])
  | r :: rs =>
    let sq := extract_sequence chroms r.chr r.start r.«end» r.strand
    let rest := assembleFragments chroms rs
    if sq.isEmpty then rest else (sq :: rest.1, rangeStr r :: rest.2)

/-- The metadata dictionary returned by `concatenate_utr_sequences`. -/
structure UtrMeta where
  strand : String
  gene_id : String
  gene_name : String
  ranges : String
  length : Nat
deriving DecidableEq

/-- `UTRExtractor.concatenate_utr_sequences`: `("", none)` on an empty
region list, otherwise the fragments of the sorted regions joined,
with metadata naming the first unsorted region's strand and gene, the
semicolon-joined provenance ranges, and the summed fragment length. -/
def concatenate_utr_sequences (chroms : Chromosomes)
    (regions : List UtrRegion) : List Char × Option UtrMeta :=
  match regions with
  | [] => ([], none)
  | r0 :: rest =>
    let sorted := sortedRegions (r0 :: rest)
    let pair := assembleFragments chroms sorted
    (pair.1.flatten,
     some { strand := r0.strand, gene_id := r0.gene_id
            gene_name := r0.gene_name
            ranges := String.intercalate ";" pair.2
            length := (pair.1.map List.length).sum })

/-- One emitted FASTA record of `extract_all_utrs`. -/
structure FastaRecord where
  transcript_id : String
  utr_class : String
  sequence : List Char
  meta : UtrMeta
deriving DecidableEq

/-- The per-class emission step of `extract_all_utrs`: nothing when the
class has no regions, nothing when the concatenated sequence is empty,
otherwise one record. -/
def emitClass (chroms : Chromosomes) (tid cls : String)
    (regions : List UtrRegion) : List FastaRecord :=
  if regions.isEmpty then []
  else
    let pair := concatenate_utr_sequences chroms regions
    match pair.2 with
    | none => []
    | some m =>
      if pair.1.isEmpty then []
      else [{ transcript_id := tid, utr_class := cls, sequence := pair.1, meta := m }]

/-- `UTRExtractor.extract_all_utrs` as the list of emitted records: for
each transcript, its 5'UTR record (if any) then its 3'UTR record. -/
def extract_all_utrs (chroms : Chromosomes)
    (utr_data : List (String × List UtrRegion × List UtrRegion)) :
    List FastaRecord :=
  utr_data.flatMap (fun p =>
    emitClass chroms p.1 "5UTR" p.2.1 ++ emitClass chroms p.1 "3UTR" p.2.2)

/-- The metadata attributes of a transcript that `load_gtf` overwrites
on every accepted row. -/
def metaOf (t : Transcript) :
    String × String × String × String × String × String :=
  (t.gene_id, t.gene_name, t.chrom, t.strand, t.gene_type, t.transcript_type)

/-- The metadata attributes an accepted row writes. -/
def metaFromRecord (r : GtfRecord) :
    String × String × String × String × String × String :=
  ((pyDictGet r.attrs "gene_id").getD "", (pyDictGet r.attrs "gene_name").getD "",
   r.chrom, r.strand, (pyDictGet r.attrs "gene_type").getD "",
   (pyDictGet r.attrs "transcript_type").getD "")

/-- The last record in file order accepted for a given transcript id. -/
def lastAccepted (records : List GtfRecord) (tid : String) : Option GtfRecord :=
  records.foldl (fun acc r => if acceptRecord r = some tid then some r else acc) none

/-- The claim's statement of the strand-`+` classification cases,
written from the specification text for comparison with the code's
branch cascade. -/
def utrCasesSpecPlus (cm cM s e : Int) : Option (String × Int × Int) :=
  if e < cm then some ("five_prime_utr", s, e)
  else if s > cM then some ("three_prime_utr", s, e)
  else if s < cm ∧ e ≥ cm then some ("five_prime_utr", s, cm - 1)
  else if s ≤ cM ∧ e > cM then some ("three_prime_utr", cM + 1, e)
  else none

/-- The claim's statement of the strand-`-` classification cases,
written from the specification text for comparison with the code's
branch cascade. -/
def utrCasesSpecMinus (cm cM s e : Int) : Option (String × Int × Int) :=
  if s > cM then some ("five_prime_utr", s, e)
  else if e < cm then some ("three_prime_utr", s, e)
  else if s ≤ cM ∧ e > cM then some ("five_prime_utr", cM + 1, e)
  else if s < cm ∧ e ≥ cm then some ("three_prime_utr", s, cm - 1)
  else none

/-- The complement mapping as the claim words it: `A↔T`, `G↔C`, `N↔N`,
and any other character — lowercase included — maps to `N`. -/
def claimComplementChar (c : Char) : Char :=
  if c = 'A' then 'T'
  else if c = 'T' then 'A'
  else if c = 'G' then 'C'
  else if c = 'C' then 'G'
  else if c = 'N' then 'N'
  else 'N'

/-- Reverse complement as the claim words it: complement each
character, then reverse the post-complement string. -/
def claimReverseComplement (s : List Char) : List Char :=
  (s.map claimComplementChar).reverse

/-- Fixture: a two-exon CDS, bounding span `[1100, 2800]`. -/
def exCds : List CdsF :=
  [{ start := 1100, «end» := 1200, frame := "0" },
   { start := 2500, «end» := 2800, frame := "2" }]

/-- Fixture: a strand-`+` transcript with two raw UTRs flanking the
CDS span. -/
def exTranscript : Transcript :=
  { gene_id := "ENSG00000001", gene_name := "GENE1", chrom := "chr1"
    strand := "+", gene_type := "protein_coding"
    transcript_type := "protein_coding", exons := []
    utrs := [{ start := 1000, «end» := 1099, original_type := "UTR" },
             { start := 2801, «end» := 3000, original_type := "UTR" }]
    cds := exCds, classified_utrs := none }

/-- Fixture: the same transcript on strand `-`. -/
def exTranscriptMinus : Transcript :=
  { exTranscript with strand := "-" }

/-- Fixture: a transcript with CDS but no raw UTR features. -/
def exTranscriptNoUtr : Transcript :=
  { exTranscript with utrs := [] }

/-- Fixture: a 20-bp chromosome store. -/
def exChroms : Chromosomes :=
  [("chr1", "ACGTACGTACGTACGTACGT".toList)]

/-- Fixture: a strand-`+` region over bases 3..6 of `chr1`. -/
def exRegionA : UtrRegion :=
  { chr := "chr1", start := 3, «end» := 6, strand := "+"
    gene_id := "ENSG00000001", gene_name := "GENE1" }

/-- Fixture: a strand-`+` region over bases 10..12 of `chr1`. -/
def exRegionB : UtrRegion :=
  { chr := "chr1", start := 10, «end» := 12, strand := "+"
    gene_id := "ENSG00000001", gene_name := "GENE1" }

/-- Fixture: a region on an unknown chromosome. -/
def exRegionBad : UtrRegion :=
  { chr := "chrX", start := 1, «end» := 4, strand := "+"
    gene_id := "ENSG00000001", gene_name := "GENE1" }

theorem classifyOne_plus_eq_spec (cm cM s e : Int) (hse : s ≤ e) :
    classifyOne "+" cm cM s e = utrCasesSpecPlus cm cM s e := by
  unfold classifyOne classifyOneRaw utrCasesSpecPlus
  rw [if_pos rfl]
  split_ifs with h1 h2 h3 h4 <;> (simp; try omega)

theorem classifyOne_minus_eq_spec (cm cM s e : Int) (hse : s ≤ e) :
    classifyOne "-" cm cM s e = utrCasesSpecMinus cm cM s e := by
  unfold classifyOne classifyOneRaw utrCasesSpecMinus
  rw [if_neg (by decide)]
  split_ifs with h1 h2 h3 h4 <;> (simp; try omega)

/-- C1: on strand `+`, with at least one CDS and one raw UTR, each raw
UTR interval `[s, e]` is classified by testing, in order: `FiveUtr`
unmodified if `e < cds_min`; else `ThreeUtr` unmodified if
`s > cds_max`; else `FiveUtr` with end clipped to `cds_min - 1` if
`s < cds_min ∧ e ≥ cds_min`; else `ThreeUtr` with start clipped to
`cds_max + 1` if `s ≤ cds_max ∧ e > cds_max`; else (fully inside the
CDS span) discarded with no `ClassifiedUtr` emitted. -/
theorem classify_plus_case_analysis (t : Transcript)
    (hs : t.strand = "+") (hc : t.cds ≠ []) (hu : t.utrs ≠ [])
    (hinv : ∀ u ∈ t.utrs, u.start ≤ u.«end») :
    (classifyT t).classified_utrs =
      some (t.utrs.filterMap (fun u =>
        (utrCasesSpecPlus (minStarts t.cds) (maxEnds t.cds)
            u.start u.«end»).map (fun k =>
          { start := k.2.1, «end» := k.2.2
            original_type := u.original_type
            classified_type := k.1 }))) ∧
    (∀ s e : Int, utrCasesSpecPlus (minStarts t.cds) (maxEnds t.cds) s e = none →
      minStarts t.cds ≤ s ∧ e ≤ maxEnds t.cds) := by
  constructor
  · have hc2 : t.cds.isEmpty = false := by
      simp [List.isEmpty_iff, hc]
    have hu2 : t.utrs.isEmpty = false := by
      simp [List.isEmpty_iff, hu]
    simp only [classifyT, hc2, hu2, Bool.or_self, Bool.false_eq_true,
      if_false, classifiedList]
    refine congrArg some (List.filterMap_congr ?_)
    intro u hu3
    rw [hs, classifyOne_plus_eq_spec _ _ _ _ (hinv u hu3)]
  · intro s e hnone
    unfold utrCasesSpecPlus at hnone
    split_ifs at hnone
    omega

theorem classify_plus_case_analysis_witness :
    (classifyT exTranscript).classified_utrs =
      some (exTranscript.utrs.filterMap (fun u =>
        (utrCasesSpecPlus (minStarts exTranscript.cds) (maxEnds exTranscript.cds)
            u.start u.«end»).map (fun k =>
          { start := k.2.1, «end» := k.2.2
            original_type := u.original_type
            classified_type := k.1 }))) ∧
    (∀ s e : Int,
      utrCasesSpecPlus (minStarts exTranscript.cds) (maxEnds exTranscript.cds) s e = none →
      minStarts exTranscript.cds ≤ s ∧ e ≤ maxEnds exTranscript.cds) :=
  classify_plus_case_analysis exTranscript rfl (by decide) (by decide) (by decide)

/-- C2: on strand `-`, with at least one CDS and one raw UTR, the same
six cases apply with 5'/3' roles swapped relative to genomic order:
`s > cds_max` is `FiveUtr` unmodified; `e < cds_min` is `ThreeUtr`
unmodified; straddling the CDS end (`s ≤ cds_max ∧ e > cds_max`) is
`FiveUtr` with start clipped to `cds_max + 1`; straddling the CDS
start (`s < cds_min ∧ e ≥ cds_min`) is `ThreeUtr` with end clipped to
`cds_min - 1`; fully inside is discarded. -/
theorem classify_minus_case_analysis (t : Transcript)
    (hs : t.strand = "-") (hc : t.cds ≠ []) (hu : t.utrs ≠ [])
    (hinv : ∀ u ∈ t.utrs, u.start ≤ u.«end») :
    (classifyT t).classified_utrs =
      some (t.utrs.filterMap (fun u =>
        (utrCasesSpecMinus (minStarts t.cds) (maxEnds t.cds)
            u.start u.«end»).map (fun k =>
          { start := k.2.1, «end» := k.2.2
            original_type := u.original_type
            classified_type := k.1 }))) ∧
    (∀ s e : Int, utrCasesSpecMinus (minStarts t.cds) (maxEnds t.cds) s e = none →
      minStarts t.cds ≤ s ∧ e ≤ maxEnds t.cds) := by
  constructor
  · have hc2 : t.cds.isEmpty = false := by
      simp [List.isEmpty_iff, hc]
    have hu2 : t.utrs.isEmpty = false := by
      simp [List.isEmpty_iff, hu]
    simp only [classifyT, hc2, hu2, Bool.or_self, Bool.false_eq_true,
      if_false, classifiedList]
    refine congrArg some (List.filterMap_congr ?_)
    intro u hu3
    rw [hs, classifyOne_minus_eq_spec _ _ _ _ (hinv u hu3)]
  · intro s e hnone
    unfold utrCasesSpecMinus at hnone
    split_ifs at hnone
    omega

theorem classify_minus_case_analysis_witness :
    (classifyT exTranscriptMinus).classified_utrs =
      some (exTranscriptMinus.utrs.filterMap (fun u =>
        (utrCasesSpecMinus (minStarts exTranscriptMinus.cds)
            (maxEnds exTranscriptMinus.cds) u.start u.«end»).map (fun k =>
          { start := k.2.1, «end» := k.2.2
            original_type := u.original_type
            classified_type := k.1 }))) ∧
    (∀ s e : Int,
      utrCasesSpecMinus (minStarts exTranscriptMinus.cds)
        (maxEnds exTranscriptMinus.cds) s e = none →
      minStarts exTranscriptMinus.cds ≤ s ∧ e ≤ maxEnds exTranscriptMinus.cds) :=
  classify_minus_case_analysis exTranscriptMinus rfl (by decide) (by decide) (by decide)

theorem classifyOne_le {strand : String} {cm cM s e : Int} {k : String}
    {s2 e2 : Int} (h : classifyOne strand cm cM s e = some (k, s2, e2)) :
    s2 ≤ e2 := by
  unfold classifyOne at h
  cases hr : classifyOneRaw strand cm cM s e with
  | none => rw [hr] at h; exact absurd h (by simp)
  | some trip =>
    obtain ⟨k0, s0, e0⟩ := trip
    rw [hr] at h
    dsimp only at h
    by_cases hle : s0 ≤ e0
    · rw [if_pos hle] at h
      simp only [Option.some_inj, Prod.mk.injEq] at h
      obtain ⟨_, hs2, he2⟩ := h
      omega
    · rw [if_neg hle] at h
      exact absurd h (by simp)

/-- C5: every `ClassifiedUtr` the classifier emits satisfies
`start ≤ end`; an interval whose classification would carry
`start > end` is silently dropped (no entry emitted), not an error. -/
theorem classified_utrs_valid :
    (∀ t : Transcript, ∀ c ∈ classifiedList t, c.start ≤ c.«end») ∧
    (∀ strand : String, ∀ cm cM s e : Int, ∀ k : String, ∀ s2 e2 : Int,
      classifyOneRaw strand cm cM s e = some (k, s2, e2) → s2 > e2 →
      classifyOne strand cm cM s e = none) := by
  constructor
  · intro t c hm
    unfold classifiedList at hm
    simp only [List.mem_filterMap] at hm
    obtain ⟨u, _, heq⟩ := hm
    cases hcl : classifyOne t.strand (minStarts t.cds) (maxEnds t.cds)
        u.start u.«end» with
    | none => rw [hcl] at heq; exact absurd heq (by simp)
    | some trip =>
      obtain ⟨k0, s0, e0⟩ := trip
      rw [hcl] at heq
      simp only [Option.map_some', Option.some_inj] at heq
      have hle := classifyOne_le hcl
      rw [← heq]
      exact hle
  · intro strand cm cM s e k s2 e2 hr hgt
    unfold classifyOne
    rw [hr]
    dsimp only
    rw [if_neg (by omega)]

/-- C3 counterexample: the claim maps lowercase characters to `'N'`,
but the code uppercases before the complement lookup, so
`reverse_complement "a"` is `"T"`, not the `"N"` the claim requires. -/
theorem rc_lowercase_counterexample :
    reverse_complement ['a'] = ['T'] ∧
    claimReverseComplement ['a'] = ['N'] ∧
    reverse_complement ['a'] ≠ claimReverseComplement ['a'] := by
  refine ⟨by decide, by decide, by decide⟩

/-- C3 amended: `reverse_complement` uppercases each character and then
complements `A↔T`, `G↔C`, `N↔N` (so lowercase `a/t/g/c/n` map to their
uppercase complements); any character whose uppercase form is outside
`{A,T,G,C,N}` maps to `'N'`; the result equals the reversal of the
post-complement string; and it is applied to every slice extracted for
a minus-strand interval. -/
theorem rc_charwise_description (s : List Char) :
    (reverse_complement s = (s.map complementChar).reverse) ∧
    (complementChar 'A' = 'T' ∧ complementChar 'T' = 'A' ∧
     complementChar 'G' = 'C' ∧ complementChar 'C' = 'G' ∧
     complementChar 'N' = 'N' ∧ complementChar 'a' = 'T' ∧
     complementChar 't' = 'A' ∧ complementChar 'g' = 'C' ∧
     complementChar 'c' = 'G' ∧ complementChar 'n' = 'N') ∧
    (∀ c : Char, c.toUpper ≠ 'A' → c.toUpper ≠ 'T' → c.toUpper ≠ 'G' →
      c.toUpper ≠ 'C' → c.toUpper ≠ 'N' → complementChar c = 'N') ∧
    (∀ chroms : Chromosomes, ∀ nm : String, ∀ a b : Int,
      extract_sequence chroms nm a b "-" =
        reverse_complement (extract_sequence chroms nm a b "+")) := by
  refine ⟨?_, by decide, ?_, ?_⟩
  · unfold reverse_complement
    exact List.map_reverse complementChar s
  · intro c h1 h2 h3 h4 h5
    unfold complementChar pyDictGetC complement_map
    simp [List.foldl, Ne.symm h1, Ne.symm h2, Ne.symm h3, Ne.symm h4, Ne.symm h5]
  · intro chroms nm a b
    unfold extract_sequence
    cases h : pyDictGet chroms nm with
    | none => rfl
    | some q =>
      dsimp only
      by_cases hcond : (a - 1 < 0 ∨ b > (q.length : Int))
      · rw [if_pos hcond, if_pos hcond]; rfl
      · rw [if_neg hcond, if_neg hcond, if_pos rfl, if_neg (by decide)]

theorem rc_charwise_description_witness :
    reverse_complement ['A', 'C'] = (['A', 'C'].map complementChar).reverse ∧
    complementChar 'R' = 'N' ∧
    extract_sequence exChroms "chr1" 3 6 "-" =
      reverse_complement (extract_sequence exChroms "chr1" 3 6 "+") :=
  ⟨(rc_charwise_description ['A', 'C']).1,
   (rc_charwise_description []).2.2.1 'R' (by decide) (by decide) (by decide)
     (by decide) (by decide),
   (rc_charwise_description []).2.2.2 exChroms "chr1" 3 6⟩

/-- C9 counterexample: the involution fails on lowercase input drawn
from the claim's case-insensitive alphabet, since the first
application uppercases: `rc (rc "a") = rc "T" = "A" ≠ "a"`. -/
theorem rc_involution_counterexample :
    reverse_complement (reverse_complement ['a']) = ['A'] ∧
    reverse_complement (reverse_complement ['a']) ≠ ['a'] := by
  refine ⟨by decide, by decide⟩

/-- C9 amended: `reverse_complement` is an involution on sequences over
the uppercase alphabet `{A,C,G,T,N}`. -/
theorem rc_involution_upper (s : List Char)
    (h : ∀ c ∈ s, c = 'A' ∨ c = 'C' ∨ c = 'G' ∨ c = 'T' ∨ c = 'N') :
    reverse_complement (reverse_complement s) = s := by
  have hcc : ∀ c ∈ s, complementChar (complementChar c) = c := by
    intro c hc
    rcases h c hc with h2 | h2 | h2 | h2 | h2 <;> subst h2 <;> decide
  unfold reverse_complement
  rw [List.map_reverse, List.map_map]
  have : s.reverse.map (complementChar ∘ complementChar) = s.reverse.map id := by
    refine List.map_congr_left ?_
    intro a ha
    exact hcc a (List.mem_reverse.mp ha)
  rw [this, List.map_id, List.reverse_reverse]

theorem rc_involution_upper_witness :
    reverse_complement (reverse_complement ['A', 'C', 'G', 'T', 'N']) =
      ['A', 'C', 'G', 'T', 'N'] :=
  rc_involution_upper ['A', 'C', 'G', 'T', 'N'] (by decide)

theorem classified_utrs_valid_witness :
    ({ start := 1000, «end» := 1099, original_type := "UTR"
       classified_type := "five_prime_utr" } : ClassifiedUtr).start ≤
      ({ start := 1000, «end» := 1099, original_type := "UTR"
         classified_type := "five_prime_utr" } : ClassifiedUtr).«end» ∧
    classifyOne "+" 5 10 7 4 = none :=
  ⟨classified_utrs_valid.1 exTranscript _ (by decide),
   classified_utrs_valid.2 "+" 5 10 7 4 "five_prime_utr" 7 4 (by decide) (by decide)⟩

theorem assembleFragments_eq (chroms : Chromosomes) (rs : List UtrRegion) :
    assembleFragments chroms rs =
      ((rs.filter (fun r =>
          !(extract_sequence chroms r.chr r.start r.«end» r.strand).isEmpty)).map
        (fun r => extract_sequence chroms r.chr r.start r.«end» r.strand),
       (rs.filter (fun r =>
          !(extract_sequence chroms r.chr r.start r.«end» r.strand).isEmpty)).map
        rangeStr) := by
  induction rs with
  | nil => rfl
  | cons r rest ih =>
    unfold assembleFragments
    rw [ih]
    by_cases hsq : (extract_sequence chroms r.chr r.start r.«end» r.strand).isEmpty
    · simp [hsq, List.filter_cons]
    · simp [hsq, List.filter_cons]

/-- C4: the assembler concatenates fragments in ascending order of
interval start on strand `+` and descending order on strand `-`, and
the provenance ranges metadata is the semicolon-join of the
`"chromosome:start-end"` strings of exactly the contributing
fragments, in the same assembly order, using the original
pre-reverse-complement genomic coordinates. -/
theorem assembly_order (chroms : Chromosomes) (regions : List UtrRegion)
    (r0 : UtrRegion) (rest : List UtrRegion) (hreg : regions = r0 :: rest) :
    (sortedRegions regions).Perm regions ∧
    (r0.strand = "+" → (sortedRegions regions).Sorted startLE) ∧
    (r0.strand = "-" → (sortedRegions regions).Sorted startGE) ∧
    concatenate_utr_sequences chroms regions =
      ((((sortedRegions regions).filter (fun r =>
            !(extract_sequence chroms r.chr r.start r.«end» r.strand).isEmpty)).map
          (fun r => extract_sequence chroms r.chr r.start r.«end» r.strand)).flatten,
       some { strand := r0.strand, gene_id := r0.gene_id
              gene_name := r0.gene_name
              ranges := String.intercalate ";"
                (((sortedRegions regions).filter (fun r =>
                    !(extract_sequence chroms r.chr r.start r.«end» r.strand).isEmpty)).map
                  rangeStr)
              length := ((((sortedRegions regions).filter (fun r =>
                  !(extract_sequence chroms r.chr r.start r.«end» r.strand).isEmpty)).map
                  (fun r => extract_sequence chroms r.chr r.start r.«end» r.strand)).map
                  List.length).sum }) := by
  subst hreg
  refine ⟨?_, ?_, ?_, ?_⟩
  · unfold sortedRegions
    dsimp only
    by_cases h0 : r0.strand = "+"
    · rw [if_pos h0]
      exact List.perm_insertionSort startLE _
    · rw [if_neg h0]
      exact List.perm_insertionSort startGE _
  · intro h0
    unfold sortedRegions
    dsimp only
    rw [if_pos h0]
    exact List.sorted_insertionSort startLE _
  · intro h0
    unfold sortedRegions
    dsimp only
    rw [if_neg (by rw [h0]; decide)]
    exact List.sorted_insertionSort startGE _
  · unfold concatenate_utr_sequences
    dsimp only
    rw [assembleFragments_eq]

theorem assembly_order_witness :
    (sortedRegions [exRegionB, exRegionA]).Perm [exRegionB, exRegionA] ∧
    (sortedRegions [exRegionB, exRegionA]).Sorted startLE :=
  ⟨(assembly_order exChroms [exRegionB, exRegionA] exRegionB [exRegionA] rfl).1,
   (assembly_order exChroms [exRegionB, exRegionA] exRegionB [exRegionA] rfl).2.1 rfl⟩

/-- C6: a slice request yields no bases — never a fatal error —
whenever the chromosome is unknown, `start < 1`, or `end` exceeds the
stored sequence length; and the assembler then skips that fragment
entirely: it contributes nothing to the concatenation and its range is
omitted from provenance, not zero-filled. -/
theorem slice_unavailable (chroms : Chromosomes) (nm : String) (a b : Int)
    (st : String) :
    (pyDictGet chroms nm = none → extract_sequence chroms nm a b st = []) ∧
    (a < 1 → extract_sequence chroms nm a b st = []) ∧
    (∀ q, pyDictGet chroms nm = some q → b > (q.length : Int) →
      extract_sequence chroms nm a b st = []) ∧
    (∀ r : UtrRegion, ∀ rs : List UtrRegion,
      extract_sequence chroms r.chr r.start r.«end» r.strand = [] →
      assembleFragments chroms (r :: rs) = assembleFragments chroms rs) := by
  refine ⟨?_, ?_, ?_, ?_⟩
  · intro h
    unfold extract_sequence
    rw [h]
  · intro h
    unfold extract_sequence
    cases hq : pyDictGet chroms nm with
    | none => rfl
    | some q =>
      dsimp only
      rw [if_pos (Or.inl (by omega))]
  · intro q hq hb
    unfold extract_sequence
    rw [hq]
    dsimp only
    rw [if_pos (Or.inr hb)]
  · intro r rs h
    simp only [assembleFragments, h, List.isEmpty_nil, if_true]

theorem slice_unavailable_witness :
    extract_sequence exChroms "chrX" 1 4 "+" = [] ∧
    extract_sequence exChroms "chr1" 0 4 "+" = [] ∧
    extract_sequence exChroms "chr1" 1 21 "+" = [] ∧
    assembleFragments exChroms [exRegionBad, exRegionA] =
      assembleFragments exChroms [exRegionA] :=
  ⟨(slice_unavailable exChroms "chrX" 1 4 "+").1 (by decide),
   (slice_unavailable exChroms "chr1" 0 4 "+").2.1 (by decide),
   (slice_unavailable exChroms "chr1" 1 21 "+").2.2.1
     ("ACGTACGTACGTACGTACGT".toList) (by decide) (by decide),
   (slice_unavailable exChroms "chrX" 0 0 "+").2.2.2 exRegionBad [exRegionA]
     (by decide)⟩

theorem mem_emitClass_length {chroms : Chromosomes} {tid cls : String}
    {regions : List UtrRegion} {rec : FastaRecord}
    (h : rec ∈ emitClass chroms tid cls regions) :
    rec.meta.length = rec.sequence.length := by
  unfold emitClass at h
  cases regions with
  | nil => exact absurd h (by simp)
  | cons r0 rest =>
    rw [if_neg (by simp)] at h
    unfold concatenate_utr_sequences at h
    dsimp only at h
    split_ifs at h with h2
    · exact absurd h (by simp)
    · simp only [List.mem_singleton] at h
      subst h
      simp [List.length_flatten]

/-- C8: a transcript/UTR-class pair with zero retained fragments emits
no sequence record at all (absence, not an empty record), and every
emitted record's `length` metadata equals the length of its
concatenated sequence. -/
theorem emit_absence_and_length (chroms : Chromosomes)
    (utr_data : List (String × List UtrRegion × List UtrRegion)) :
    (∀ tid cls : String, ∀ regions : List UtrRegion,
      (assembleFragments chroms (sortedRegions regions)).1 = [] →
      emitClass chroms tid cls regions = []) ∧
    (∀ rec ∈ extract_all_utrs chroms utr_data,
      rec.meta.length = rec.sequence.length) := by
  constructor
  · intro tid cls regions h
    unfold emitClass
    cases regions with
    | nil => rfl
    | cons r0 rest =>
      rw [if_neg (by simp)]
      unfold concatenate_utr_sequences
      dsimp only
      rw [h]
      simp
  · intro rec hrec
    unfold extract_all_utrs at hrec
    simp only [List.mem_flatMap, List.mem_append] at hrec
    obtain ⟨p, _, hrec⟩ := hrec
    rcases hrec with hrec | hrec
    · exact mem_emitClass_length hrec
    · exact mem_emitClass_length hrec

theorem emit_absence_and_length_witness :
    emitClass exChroms "ENST00000001" "5UTR" [exRegionBad] = [] ∧
    (∀ rec ∈ extract_all_utrs exChroms
        [("ENST00000001", [exRegionA], [exRegionB])],
      rec.meta.length = rec.sequence.length) :=
  ⟨(emit_absence_and_length exChroms []).1 "ENST00000001" "5UTR" [exRegionBad]
     (by decide),
   (emit_absence_and_length exChroms
     [("ENST00000001", [exRegionA], [exRegionB])]).2⟩

theorem rowsForTranscript_tid (tid : String) (t : Transcript) :
    ∀ row ∈ rowsForTranscript tid t, row.transcript_id = tid := by
  intro row hrow
  unfold rowsForTranscript at hrow
  split_ifs at hrow with h
  · exact absurd hrow (by simp)
  · rcases List.mem_append.mp hrow with h2 | h2
    · obtain ⟨c, _, hc⟩ := List.mem_map.mp h2
      rw [← hc]
      rfl
    · cases hcl : t.classified_utrs with
      | none =>
        rw [hcl] at h2
        exact absurd h2 (by simp)
      | some cl =>
        rw [hcl] at h2
        obtain ⟨u, _, hu⟩ := List.mem_map.mp h2
        rw [← hu]
        rfl

theorem rowsForTranscript_ne_nil (tid : String) (t : Transcript)
    (h : t.cds ≠ []) : rowsForTranscript tid t ≠ [] := by
  unfold rowsForTranscript
  rw [if_neg (by simp [h])]
  intro hcontra
  rcases List.append_eq_nil.mp hcontra with ⟨h1, _⟩
  have hsort : t.cds.insertionSort cdsLE = [] := by
    rcases hs : t.cds.insertionSort cdsLE with _ | ⟨a, l⟩
    · rfl
    · rw [hs] at h1
      exact absurd h1 (by simp)
  have hp := List.perm_insertionSort cdsLE t.cds
  rw [hsort] at hp
  exact h hp.symm.eq_nil

theorem classifyT_cds (t : Transcript) : (classifyT t).cds = t.cds := by
  unfold classifyT
  split_ifs <;> rfl

/-- C7: the annotation output contains rows for a transcript if and
only if the transcript has at least one CDS feature; a transcript with
CDS but no raw UTR features is left unchanged by the classifier and
retained with CDS-only rows. -/
theorem output_iff_cds (ts : List (String × Transcript)) (tid : String) :
    ((∃ row ∈ write_output_gtf (classify_utrs ts), row.transcript_id = tid) ↔
      ∃ t : Transcript, (tid, t) ∈ ts ∧ t.cds ≠ []) ∧
    (∀ i : String, ∀ t : Transcript, t.cds ≠ [] → t.utrs = [] →
      t.classified_utrs = none →
      classifyT t = t ∧
      rowsForTranscript i t =
        (t.cds.insertionSort cdsLE).map (cdsRowOf i t)) := by
  constructor
  · constructor
    · intro hex
      obtain ⟨row, hrow, htid⟩ := hex
      unfold write_output_gtf at hrow
      simp only [List.mem_flatMap] at hrow
      obtain ⟨p, hp, hrowp⟩ := hrow
      unfold classify_utrs at hp
      obtain ⟨q, hq, hpq⟩ := List.mem_map.mp hp
      obtain ⟨i, t⟩ := q
      have hpeq : p = (i, classifyT t) := hpq.symm
      subst hpeq
      have htid2 := rowsForTranscript_tid i (classifyT t) row hrowp
      have hcds : (classifyT t).cds ≠ [] := by
        intro hnil
        unfold rowsForTranscript at hrowp
        rw [if_pos (by simp [hnil])] at hrowp
        exact absurd hrowp (by simp)
      rw [classifyT_cds] at hcds
      have hit : i = tid := by rw [← htid2, htid]
      subst hit
      exact ⟨t, hq, hcds⟩
    · intro hex
      obtain ⟨t, hmem, hcds⟩ := hex
      have hcds2 : (classifyT t).cds ≠ [] := by
        rw [classifyT_cds]
        exact hcds
      obtain ⟨row, hrow⟩ :=
        List.exists_mem_of_ne_nil _ (rowsForTranscript_ne_nil tid (classifyT t) hcds2)
      refine ⟨row, ?_, rowsForTranscript_tid tid (classifyT t) row hrow⟩
      unfold write_output_gtf classify_utrs
      simp only [List.mem_flatMap]
      exact ⟨(tid, classifyT t), List.mem_map.mpr ⟨(tid, t), hmem, rfl⟩, hrow⟩
  · intro i t hc hu hcl
    constructor
    · unfold classifyT
      rw [if_pos (by simp [hu])]
    · unfold rowsForTranscript
      rw [if_neg (by simp [hc]), hcl]
      simp

theorem output_iff_cds_witness :
    (∃ row ∈ write_output_gtf (classify_utrs [("ENST00000001", exTranscript)]),
      row.transcript_id = "ENST00000001") ∧
    classifyT exTranscriptNoUtr = exTranscriptNoUtr ∧
    rowsForTranscript "ENST00000001" exTranscriptNoUtr =
      (exTranscriptNoUtr.cds.insertionSort cdsLE).map
        (cdsRowOf "ENST00000001" exTranscriptNoUtr) :=
  ⟨(output_iff_cds [("ENST00000001", exTranscript)] "ENST00000001").1.mpr
     ⟨exTranscript, List.mem_singleton.mpr rfl, by decide⟩,
   ((output_iff_cds [] "").2 "ENST00000001" exTranscriptNoUtr
     (by decide) rfl rfl).1,
   ((output_iff_cds [] "").2 "ENST00000001" exTranscriptNoUtr
     (by decide) rfl rfl).2⟩

theorem lookupAssoc_updateAssoc (m : List (String × Transcript)) (k : String)
    (f : Transcript → Transcript) (k2 : String) :
    lookupAssoc (updateAssoc m k f) k2 =
      if k2 = k then some (f ((lookupAssoc m k).getD emptyTranscript))
      else lookupAssoc m k2 := by
  induction m with
  | nil =>
    by_cases h : k2 = k
    · subst h
      simp [updateAssoc, lookupAssoc]
    · simp [updateAssoc, lookupAssoc, h, Ne.symm h]
  | cons hd tl ih =>
    obtain ⟨kh, vh⟩ := hd
    by_cases hh : kh = k
    · subst hh
      by_cases h2 : k2 = kh
      · subst h2
        simp [updateAssoc, lookupAssoc]
      · simp [updateAssoc, lookupAssoc, h2, Ne.symm h2]
    · by_cases h2 : k2 = kh
      · subst h2
        simp [updateAssoc, lookupAssoc, hh, Ne.symm hh]
      · simp [updateAssoc, lookupAssoc, hh, h2, Ne.symm h2, ih]

theorem metaOf_applyRecord (t : Transcript) (r : GtfRecord) :
    metaOf (applyRecord t r) = metaFromRecord r := by
  unfold applyRecord metaOf metaFromRecord
  split_ifs <;> rfl

theorem lastAccepted_shift (rs : List GtfRecord) (tid : String)
    (acc : Option GtfRecord) :
    List.foldl (fun a r => if acceptRecord r = some tid then some r else a)
        acc rs =
      (lastAccepted rs tid).elim acc some := by
  induction rs generalizing acc with
  | nil =>
    unfold lastAccepted
    simp
  | cons r rest ih =>
    unfold lastAccepted
    simp only [List.foldl_cons]
    rw [ih, ih]
    cases hrest :
        List.foldl (fun a r => if acceptRecord r = some tid then some r else a)
          none rest with
    | none =>
      unfold lastAccepted at ih ⊢
      rw [hrest]
      by_cases ha : acceptRecord r = some tid
      · rw [if_pos ha, if_pos ha]
        rfl
      · rw [if_neg ha, if_neg ha]
        rfl
    | some x =>
      unfold lastAccepted
      rw [hrest]
      rfl

theorem lastAccepted_cons (r : GtfRecord) (rest : List GtfRecord)
    (tid : String) :
    lastAccepted (r :: rest) tid =
      (lastAccepted rest tid).elim
        (if acceptRecord r = some tid then some r else none) some := by
  unfold lastAccepted
  simp only [List.foldl_cons]
  exact lastAccepted_shift rest tid _

theorem load_meta_aux (rs : List GtfRecord) (tid : String) :
    ∀ m : List (String × Transcript),
      (lookupAssoc (List.foldl stepLoad m rs) tid).map metaOf =
        (lastAccepted rs tid).elim ((lookupAssoc m tid).map metaOf)
          (fun r => some (metaFromRecord r)) := by
  induction rs with
  | nil =>
    intro m
    unfold lastAccepted
    simp
  | cons r rest ih =>
    intro m
    simp only [List.foldl_cons]
    rw [ih (stepLoad m r), lastAccepted_cons]
    cases hrest : lastAccepted rest tid with
    | some x => rfl
    | none =>
      cases haccept : acceptRecord r with
      | none =>
        have hstep : stepLoad m r = m := by
          unfold stepLoad
          rw [haccept]
        rw [hstep, if_neg (by simp [haccept])]
        rfl
      | some k =>
        have hstep : stepLoad m r = updateAssoc m k (fun t => applyRecord t r) := by
          unfold stepLoad
          rw [haccept]
        rw [hstep, lookupAssoc_updateAssoc]
        by_cases hk : tid = k
        · subst hk
          rw [if_pos rfl, if_pos rfl]
          simp [metaOf_applyRecord, Option.elim_none, Option.elim_some]
        · have hne : ¬(k = tid) := fun he => hk he.symm
          rw [if_neg hk]
          simp [Option.elim_none, Option.elim_some, hne]

/-- C10: after loading, a transcript's gene/strand metadata attributes
equal those of the last accepted annotation row bearing its id in file
order, regardless of that row's feature type; conflicting metadata in
earlier rows is silently overwritten, never rejected. -/
theorem load_metadata_last_row (records : List GtfRecord) (tid : String) :
    (lookupAssoc (load_gtf records) tid).map metaOf =
      (lastAccepted records tid).map metaFromRecord := by
  unfold load_gtf
  rw [load_meta_aux records tid []]
  cases h : lastAccepted records tid with
  | none =>
    unfold lookupAssoc
    rfl
  | some r => rfl

end Gtf2Utr
